import Mathlib

/-!
Verification development for the douyin-publisher media assembly pipeline.

The definitions below are shallow embeddings of the subtitle, cover and video
helpers of src/feed_share.py and src/gen_cover.py.  Python floats holding
times (seconds) are modelled as exact rationals, Python strings as lists of
characters (a Python string is a sequence of code points), and external
effects (font metrics, process invocation, the filesystem) as explicit
function parameters or small state values.
-/

/-- Timed subtitle cue as emitted in SRT blocks by src/feed_share.py: a
1-based block number, start and end times in seconds, and the cue text.
The field stop stands for the Python name end, which is a Lean keyword. -/
structure SubtitleCue where
  index : ℕ
  start : ℚ
  stop : ℚ
  text : List Char
deriving DecidableEq

/-- Parsed cue of the foreign VTT caption file as reconstructed by vtt_to_srt
(src/feed_share.py:225-254): paired start and end timestamps with the joined
text lines.  The field stop stands for the Python key end. -/
structure RawSub where
  start : ℚ
  stop : ℚ
  text : List Char
deriving DecidableEq

/-- Word-level timestamp triple collected from the transcription collaborator
in gen_subtitles_whisper (src/feed_share.py:109-117). -/
structure Word where
  text : List Char
  start : ℚ
  stop : ℚ
deriving DecidableEq

/-- Python str.split-on-predicate semantics: n separator characters yield
n+1 pieces, so consecutive separators produce empty pieces and the result is
never empty. -/
def pySplit (p : Char → Bool) : List Char → List (List Char)
  | [] => [[]]
  | c :: rest =>
    if p c then [] :: pySplit p rest
    else
      match pySplit p rest with
      | [] => [[c]]
      | l :: ls => (c :: l) :: ls

/-- Python str.strip with no argument: remove leading and trailing whitespace
characters. -/
def pyStrip (l : List Char) : List Char :=
  ((l.dropWhile Char.isWhitespace).reverse.dropWhile Char.isWhitespace).reverse

/-- Python float modulo for a rational a and modulus b, which takes the sign
of the divisor: a % b = a - b * floor (a / b). -/
def pyMod (a b : ℚ) : ℚ := a - b * ⌊a / b⌋

/-- Python format spec 0Nd applied to a natural number: decimal digits padded
with leading zeros to the requested width. -/
def natPad (w : ℕ) (n : ℕ) : String :=
  String.mk (List.replicate (w - (Nat.repr n).length) '0') ++ Nat.repr n

/-- Python format spec 0Nd applied to an integer: the sign character counts
toward the padded width, as in CPython. -/
def intPad (w : ℕ) (n : ℤ) : String :=
  if n < 0 then "-" ++ natPad (w - 1) n.natAbs else natPad w n.toNat

/-- format_time as defined inside gen_subtitles_whisper
(src/feed_share.py:123-128).  Python int() truncates toward zero; every
field it is applied to here is produced by // or % with a positive divisor
and hence is already an integer or non-negative, so floor is exact. -/
def format_time_whisper (seconds : ℚ) : String :=
  let h : ℤ := ⌊seconds / 3600⌋
  let m : ℤ := ⌊pyMod seconds 3600 / 60⌋
  let s : ℤ := ⌊pyMod seconds 60⌋
  let ms : ℤ := ⌊pyMod seconds 1 * 1000⌋
  intPad 2 h ++ ":" ++ intPad 2 m ++ ":" ++ intPad 2 s ++ "," ++ intPad 3 ms

/-- format_time as defined inside vtt_to_srt (src/feed_share.py:189-195),
translated field by field exactly like the whisper copy. -/
def format_time_vtt (seconds : ℚ) : String :=
  let h : ℤ := ⌊seconds / 3600⌋
  let m : ℤ := ⌊pyMod seconds 3600 / 60⌋
  let s : ℤ := ⌊pyMod seconds 60⌋
  let ms : ℤ := ⌊pyMod seconds 1 * 1000⌋
  intPad 2 h ++ ":" ++ intPad 2 m ++ ":" ++ intPad 2 s ++ "," ++ intPad 3 ms

/-- format_time as defined inside gen_subtitles (src/feed_share.py:300-305),
translated field by field exactly like the other two copies. -/
def format_time_fallback (seconds : ℚ) : String :=
  let h : ℤ := ⌊seconds / 3600⌋
  let m : ℤ := ⌊pyMod seconds 3600 / 60⌋
  let s : ℤ := ⌊pyMod seconds 60⌋
  let ms : ℤ := ⌊pyMod seconds 1 * 1000⌋
  intPad 2 h ++ ":" ++ intPad 2 m ++ ":" ++ intPad 2 s ++ "," ++ intPad 3 ms

/-- Sentence delimiters of gen_subtitles (src/feed_share.py:285): the regex
class of Chinese full stop, exclamation mark, question mark and newline. -/
def isSentenceDelim (c : Char) : Bool :=
  c == '。' || c == '！' || c == '？' || c == '\n'

/-- Sentence splitting of gen_subtitles (src/feed_share.py:285-289):
re.split on the delimiter class, strip each piece, drop empty pieces, and
fall back to the whole text when nothing remains.  Collapsing of adjacent
delimiters by the regex + only affects the empty pieces dropped here. -/
def splitSentences (text : List Char) : List (List Char) :=
  let ss := ((pySplit isSentenceDelim text).map pyStrip).filter (fun s => !s.isEmpty)
  if ss.isEmpty then [text] else ss

/-- Cue construction loop of gen_subtitles (src/feed_share.py:294-310): the
i-th sentence (0-based) becomes block i+1 spanning [i*tps, (i+1)*tps - 0.1]
where tps is the per-sentence time share. -/
def sentenceCues (tps : ℚ) : ℕ → List (List Char) → List SubtitleCue
  | _, [] => []
  | i, s :: rest =>
    { index := i + 1
      start := (i : ℚ) * tps
      stop := ((i : ℚ) + 1) * tps - 1/10
      text := s } :: sentenceCues tps (i + 1) rest

/-- Duration-proportional fallback subtitle generation, gen_subtitles
(src/feed_share.py:277-313), returning the cue sequence it writes as SRT
blocks. -/
def gen_subtitles (text : List Char) (duration : ℚ) : List SubtitleCue :=
  let sentences := splitSentences text
  sentenceCues (duration / (sentences.length : ℚ)) 0 sentences

/-- State of the word-grouping loop of gen_subtitles_whisper
(src/feed_share.py:130-134): emitted blocks, next block number, the text
accumulated for the current cue, and the start and end trackers which begin
as Python None. -/
structure WhisperState where
  blocks : List SubtitleCue
  num : ℕ
  curText : List Char
  curStart : Option ℚ
  curEnd : Option ℚ

/-- One iteration of the word loop of gen_subtitles_whisper
(src/feed_share.py:136-155): skip empty words, adopt the word's start when no
cue is open, close the current cue when adding the word would exceed
maxChars and the cue is non-empty, otherwise accumulate, and always advance
the end tracker to the word's end. -/
def whisperStep (maxChars : ℕ) (st : WhisperState) (w : Word) : WhisperState :=
  if w.text = [] then st
  else
    let s0 := st.curStart.getD w.start
    if st.curText.length + w.text.length > maxChars ∧ st.curText ≠ [] then
      { blocks := st.blocks ++
          [{ index := st.num, start := s0, stop := st.curEnd.getD 0, text := st.curText }]
        num := st.num + 1
        curText := w.text
        curStart := some w.start
        curEnd := some w.stop }
    else
      { st with curText := st.curText ++ w.text, curStart := some s0, curEnd := some w.stop }

/-- Word-timestamp subtitle production of gen_subtitles_whisper
(src/feed_share.py:130-161): fold the word loop and flush the final partial
cue when non-empty.  The cue sequence returned is what the function writes
as SRT blocks. -/
def gen_subtitles_whisper (maxChars : ℕ) (words : List Word) : List SubtitleCue :=
  let st := words.foldl (whisperStep maxChars)
    { blocks := [], num := 1, curText := [], curStart := none, curEnd := none }
  if st.curText = [] then st.blocks
  else st.blocks ++
    [{ index := st.num, start := st.curStart.getD 0, stop := st.curEnd.getD 0, text := st.curText }]

/-- Punctuation class used by vtt_to_srt.split_text (src/feed_share.py:207)
for preferred split points. -/
def isSplitPunct (c : Char) : Bool :=
  c == '，' || c == '。' || c == '！' || c == '？' || c == '、' || c == '；' || c == '：'

/-- Punctuation-preferring segmentation pass of vtt_to_srt.split_text
(src/feed_share.py:203-211): accumulate characters, closing a segment at a
punctuation character once the accumulated segment has reached at least
maxChars / 2 characters; the trailing remainder is kept when non-empty. -/
def punctSegments (maxChars : ℕ) (acc : List Char) : List Char → List (List Char)
  | [] => if acc = [] then [] else [acc]
  | c :: rest =>
    let cur := acc ++ [c]
    if isSplitPunct c ∧ maxChars / 2 ≤ cur.length then cur :: punctSegments maxChars [] rest
    else punctSegments maxChars cur rest

/-- Forced segmentation pass of vtt_to_srt.split_text
(src/feed_share.py:214-220), written with explicit fuel so that it is
structurally recursive: while the segment is longer than maxChars, emit its
first maxChars characters and continue on the rest; a final non-empty
remainder is emitted as well.  With fuel at least the segment length and
maxChars at least 1 the fuel never runs out; the source loops forever when
max_chars is 0, a value unreachable from its callers (default 20). -/
def forceSplitGo (maxChars : ℕ) : ℕ → List Char → List (List Char)
  | 0, seg => if seg = [] then [] else [seg]
  | fuel + 1, seg =>
    if maxChars < seg.length then seg.take maxChars :: forceSplitGo maxChars fuel (seg.drop maxChars)
    else if seg = [] then [] else [seg]

/-- Forced segmentation of one punctuation segment, entry point of the while
loop of vtt_to_srt.split_text (src/feed_share.py:214-220). -/
def forceSplit (maxChars : ℕ) (seg : List Char) : List (List Char) :=
  forceSplitGo maxChars seg.length seg

/-- vtt_to_srt.split_text (src/feed_share.py:197-222): texts within the
limit pass through unchanged; longer texts are segmented at punctuation then
force-split, falling back to the whole text if no segment was produced. -/
def split_text (text : List Char) (maxChars : ℕ) : List (List Char) :=
  if text.length ≤ maxChars then [text]
  else
    let result := ((punctSegments maxChars [] text).map (forceSplit maxChars)).flatten
    if result = [] then [text] else result

/-- Cue emission for the parts of one re-split VTT cue
(src/feed_share.py:267-272): the j-th part (0-based) of a source cue starting
at s0 becomes block n+j spanning [s0 + j*tpp, s0 + (j+1)*tpp - 0.05]. -/
def vttPartCues (s0 tpp : ℚ) : ℕ → ℕ → List (List Char) → List SubtitleCue
  | _, _, [] => []
  | n, j, p :: rest =>
    { index := n
      start := s0 + (j : ℚ) * tpp
      stop := s0 + ((j : ℚ) + 1) * tpp - 1/20
      text := p } :: vttPartCues s0 tpp (n + 1) (j + 1) rest

/-- Outer loop of the SRT re-splitting phase of vtt_to_srt
(src/feed_share.py:259-272): each parsed cue is split into parts, its
duration divided evenly among them, and block numbers continue across source
cues. -/
def vttCuesGo (maxChars : ℕ) : ℕ → List RawSub → List SubtitleCue
  | _, [] => []
  | n, sub :: rest =>
    let parts := split_text sub.text maxChars
    let tpp := (sub.stop - sub.start) / (parts.length : ℚ)
    vttPartCues sub.start tpp n 0 parts ++ vttCuesGo maxChars (n + parts.length) rest

/-- Conversion path of vtt_to_srt (src/feed_share.py:167-274) from the
parsed cue list onward, returning the cue sequence it writes as SRT blocks;
block numbering starts at 1. -/
def vtt_to_srt (subs : List RawSub) (maxChars : ℕ) : List SubtitleCue :=
  vttCuesGo maxChars 1 subs

/-- Character-granular greedy wrapping loop of wrap_text
(src/gen_cover.py:28-39) over an abstract width measure standing for the
pixel width draw.textbbox reports for a rendered string: extend the current
line while the measured width of the extended line stays within maxWidth,
otherwise close the non-empty current line and start a new line with the
character. -/
def wrapGo (w : List Char → ℕ) (maxWidth : ℕ) (cur : List Char) : List Char → List (List Char)
  | [] => if cur = [] then [] else [cur]
  | c :: rest =>
    let test := cur ++ [c]
    if w test ≤ maxWidth then wrapGo w maxWidth test rest
    else if cur = [] then wrapGo w maxWidth [c] rest
    else cur :: wrapGo w maxWidth [c] rest

/-- wrap_text (src/gen_cover.py:22-41): character-granular wrapping of a
text under an abstract width measure. -/
def wrap_text (w : List Char → ℕ) (maxWidth : ℕ) (text : List Char) : List (List Char) :=
  wrapGo w maxWidth [] text

/-- Font-shrink loop of gen_cover (src/gen_cover.py:107-148).  The fits
parameter abstracts the test total_h <= max_content_height of one attempt,
which depends on external font metrics; it receives the title size, body
size, spacing and title-body gap of the attempt.  The returned pair is the
title and body size of the last executed attempt, the sizes of the fonts the
function then renders with.  On a failed attempt the title size shrinks by
10 and body size, spacing and gap are re-derived as int(t*0.67), int(t*0.4)
and int(t*0.67); for the sizes 80 down to 30 arising here those float
products truncate exactly like t*67/100 and t*4/10 in integer arithmetic. -/
def shrinkLoop (fits : ℕ → ℕ → ℕ → ℕ → Bool) (t b sp g : ℕ) : ℕ × ℕ :=
  if 40 ≤ t then
    if fits t b sp g then (t, b)
    else if h : 40 ≤ t - 10 then
      shrinkLoop fits (t - 10) ((t - 10) * 67 / 100) ((t - 10) * 4 / 10) ((t - 10) * 67 / 100)
    else (t, b)
  else (t, b)
termination_by t
decreasing_by omega

/-- Number of attempts (loop body executions) the font-shrink loop of
gen_cover performs, mirroring the structure of shrinkLoop. -/
def shrinkIters (fits : ℕ → ℕ → ℕ → ℕ → Bool) (t b sp g : ℕ) : ℕ :=
  if 40 ≤ t then
    if fits t b sp g then 1
    else if h : 40 ≤ t - 10 then
      1 + shrinkIters fits (t - 10) ((t - 10) * 67 / 100) ((t - 10) * 4 / 10) ((t - 10) * 67 / 100)
    else 1
  else 0
termination_by t
decreasing_by omega

/-- Title and body parsing of gen_cover (src/gen_cover.py:94-96): split on
newlines, the stripped first line is the title, the remaining lines are
stripped and kept when non-empty. -/
def gen_cover_parseTitleBody (text : List Char) : List Char × List (List Char) :=
  let rawLines := pySplit (fun c => c == '\n') text
  (pyStrip (rawLines.headD []),
    ((rawLines.drop 1).map pyStrip).filter (fun l => !l.isEmpty))

/-- Outcome of gen_cover (src/gen_cover.py:44-171) relevant to layout: the
parsed title and body block and the font sizes of the last shrink attempt.
The function contains no input validation and no error path: it always
proceeds to render and save the canvas, so the result is total in the
text. -/
def gen_cover_result (fits : ℕ → ℕ → ℕ → ℕ → Bool) (text : List Char) :
    (List Char × List (List Char)) × (ℕ × ℕ) :=
  (gen_cover_parseTitleBody text, shrinkLoop fits 90 60 40 60)

/-- Digit-string value, most significant digit first. -/
def digitsVal (l : List Char) : ℕ :=
  l.foldl (fun a c => 10 * a + (c.toNat - 48)) 0

/-- Plain decimal literal built from an integer part and a fraction part,
valid when both parts are all digits and at least one is non-empty. -/
def parseDecimal (ip fp : List Char) : Option ℚ :=
  if ip.all Char.isDigit ∧ fp.all Char.isDigit ∧ (ip ≠ [] ∨ fp ≠ []) then
    some ((digitsVal ip : ℚ) + (digitsVal fp : ℚ) / (10 : ℚ) ^ fp.length)
  else none

/-- Unsigned decimal literal: at most one decimal point. -/
def parseUnsigned (l : List Char) : Option ℚ :=
  match l.splitOn '.' with
  | [ip] => parseDecimal ip []
  | [ip, fp] => parseDecimal ip fp
  | _ => none

/-- Model of Python float() on the (already stripped) probe output: an
optionally signed plain decimal literal, the form ffprobe emits for a
duration; anything else, in particular the empty string or N/A, makes
float() raise ValueError, modelled as none. -/
def parseFloat (l : List Char) : Option ℚ :=
  match l with
  | '+' :: r => parseUnsigned r
  | '-' :: r => (parseUnsigned r).map (fun q => -q)
  | r => parseUnsigned r

/-- Outcome of the audio-duration stage of gen_video
(src/feed_share.py:318-328): probe exits non-zero and the function returns
False after printing a diagnostic (failure); probe exits zero and its output
parses as a float (proceed with that duration); or probe exits zero with
non-numeric output and float() raises an uncaught ValueError. -/
inductive GenVideoStep where
  | failure
  | valueError
  | proceed (duration : ℚ)
deriving DecidableEq

/-- Audio-duration handling of gen_video (src/feed_share.py:319-328):
non-zero probe exit returns the failure result; otherwise the stripped
stdout is passed to float(), which either yields the clip duration or
raises. -/
def gen_video_duration (returncode : ℤ) (stdout : List Char) : GenVideoStep :=
  if returncode ≠ 0 then GenVideoStep.failure
  else
    match parseFloat (pyStrip stdout) with
    | some d => GenVideoStep.proceed d
    | none => GenVideoStep.valueError

/-- Filesystem operations on the sanitized temporary subtitle path. -/
inductive FsOp where
  | copyTempSubtitles
  | removeTempSubtitles
deriving DecidableEq

/-- Operations gen_video performs on the temporary subtitle path
(src/feed_share.py:339-379): when a subtitle file is present it copies it to
the fixed temporary location (lines 341-344); no removal appears anywhere in
the function, whether the encoder invocation succeeds or fails
(lines 373-379). -/
def gen_video_tempOps (subtitlesPresent : Bool) (composerSucceeds : Bool) : List FsOp :=
  if subtitlesPresent then [FsOp.copyTempSubtitles] else []

/-- Effect of one temp-path operation on whether the temp file exists. -/
def applyFsOp (st : Bool) : FsOp → Bool
  | FsOp.copyTempSubtitles => true
  | FsOp.removeTempSubtitles => false

/-- Whether the temporary subtitle copy exists after a gen_video call, given
whether it existed before. -/
def tempAfter (subtitlesPresent composerSucceeds st : Bool) : Bool :=
  (gen_video_tempOps subtitlesPresent composerSucceeds).foldl applyFsOp st

/-- Cue indices are exactly n, n+1, ... in order. -/
def indicesFrom : ℕ → List SubtitleCue → Prop
  | _, [] => True
  | n, c :: rest => c.index = n ∧ indicesFrom (n + 1) rest

/-- Every cue starts strictly before it ends. -/
abbrev startsBeforeStops (cues : List SubtitleCue) : Prop :=
  ∀ c ∈ cues, c.start < c.stop

/-- Consecutive cues do not overlap: each ends no later than the next
starts. -/
abbrev nonOverlapping (cues : List SubtitleCue) : Prop :=
  List.Chain' (fun a b => a.stop ≤ b.start) cues

/-- Consecutive parsed source cues are ordered and non-overlapping. -/
abbrev rawOrdered (subs : List RawSub) : Prop :=
  List.Chain' (fun a b => a.stop ≤ b.start) subs

/-- Every cue text is non-empty and within the character bound. -/
abbrev cuesTextBounded (m : ℕ) (cues : List SubtitleCue) : Prop :=
  ∀ c ∈ cues, c.text ≠ [] ∧ c.text.length ≤ m

/-- Every produced segment is non-empty and within the character bound. -/
abbrev partsWellFormed (m : ℕ) (parts : List (List Char)) : Prop :=
  ∀ p ∈ parts, p ≠ [] ∧ p.length ≤ m

/-- Every wrapped line measures within the width bound. -/
abbrev linesFit (w : List Char → ℕ) (maxWidth : ℕ) (lines : List (List Char)) : Prop :=
  ∀ l ∈ lines, w l ≤ maxWidth

/-- No wrapped line is empty. -/
abbrev noEmptyLine (lines : List (List Char)) : Prop :=
  ∀ l ∈ lines, l ≠ []

/-- Width measure charging ten pixels per character; monotone under
appending. -/
def tenPerChar (l : List Char) : ℕ := 10 * l.length

/-- Width measure charging one pixel per character; monotone under
appending. -/
def onePerChar (l : List Char) : ℕ := l.length

instance : DecidableRel fun a b : SubtitleCue => a.stop ≤ b.start :=
  fun a b => inferInstanceAs (Decidable (a.stop ≤ b.start))

instance : DecidableRel fun a b : RawSub => a.stop ≤ b.start :=
  fun a b => inferInstanceAs (Decidable (a.stop ≤ b.start))

theorem wrapGo_join (w : List Char → ℕ) (maxWidth : ℕ) :
    ∀ (text cur : List Char), (wrapGo w maxWidth cur text).flatten = cur ++ text := by
  intro text
  induction text with
  | nil =>
    intro cur
    by_cases h : cur = [] <;> simp [wrapGo, h]
  | cons c rest ih =>
    intro cur
    simp only [wrapGo]
    split_ifs with h1 h2
    · rw [ih]; simp
    · rw [ih]; simp [h2]
    · simp only [List.flatten_cons]; rw [ih]; simp

theorem wrapGo_ne_nil (w : List Char → ℕ) (maxWidth : ℕ) :
    ∀ (text cur : List Char), ∀ l ∈ wrapGo w maxWidth cur text, l ≠ [] := by
  intro text
  induction text with
  | nil =>
    intro cur l hl
    by_cases h : cur = []
    · simp [wrapGo, h] at hl
    · simp [wrapGo, h] at hl
      simpa [hl] using h
  | cons c rest ih =>
    intro cur l hl
    simp only [wrapGo] at hl
    split_ifs at hl with h1 h2
    · exact ih _ l hl
    · exact ih _ l hl
    · rcases List.mem_cons.mp hl with rfl | hl
      · exact h2
      · exact ih _ l hl

theorem wrapGo_fit (w : List Char → ℕ) (maxWidth : ℕ) (hc : ∀ c : Char, w [c] ≤ maxWidth) :
    ∀ (text cur : List Char), (cur = [] ∨ w cur ≤ maxWidth) →
      ∀ l ∈ wrapGo w maxWidth cur text, w l ≤ maxWidth := by
  intro text
  induction text with
  | nil =>
    intro cur hcur l hl
    by_cases h : cur = []
    · simp [wrapGo, h] at hl
    · simp [wrapGo, h] at hl
      rcases hcur with hc' | hc'
      · exact absurd hc' h
      · simpa [hl] using hc'
  | cons c rest ih =>
    intro cur hcur l hl
    simp only [wrapGo] at hl
    split_ifs at hl with h1 h2
    · exact ih _ (Or.inr h1) l hl
    · exact ih _ (Or.inr (hc c)) l hl
    · rcases List.mem_cons.mp hl with rfl | hl
      · rcases hcur with hc' | hc'
        · exact absurd hc' h2
        · exact hc'
      · exact ih _ (Or.inr (hc c)) l hl

/-- C10: concatenating the lines wrap_text returns reproduces the input text
exactly, and no returned line is empty: the character-granular wrapper never
drops, duplicates or reorders a character. -/
theorem wrap_text_concat_exact (w : List Char → ℕ) (maxWidth : ℕ) (text : List Char) :
    (wrap_text w maxWidth text).flatten = text ∧ noEmptyLine (wrap_text w maxWidth text) :=
  ⟨by simpa [wrap_text] using wrapGo_join w maxWidth text [],
   fun l hl => wrapGo_ne_nil w maxWidth text [] l (by simpa [wrap_text] using hl)⟩

/-- Witness for the wrap_text concatenation theorem at a concrete text and
width measure. -/
theorem wrap_text_concat_exact_wit :
    (wrap_text onePerChar 2 ['a', 'b', 'c']).flatten = ['a', 'b', 'c'] ∧
    noEmptyLine (wrap_text onePerChar 2 ['a', 'b', 'c']) :=
  wrap_text_concat_exact onePerChar 2 ['a', 'b', 'c']

/-- Counterexample to C5 as stated: under the monotone width measure
charging 10 pixels per character and max width 5, wrap_text emits the
single-character line a, measuring 10 > 5.  A line can exceed the width
bound exactly when one character alone does. -/
theorem wrap_text_width_cex :
    ¬ linesFit tenPerChar 5 (wrap_text tenPerChar 5 ['a', 'b']) := by decide

/-- C5 amended: every wrap_text line measures within the bound provided
every single character does; without that proviso a lone oversize character
becomes a line wider than the bound. -/
theorem wrap_text_width_bound (w : List Char → ℕ) (maxWidth : ℕ) (text : List Char)
    (hc : ∀ c : Char, w [c] ≤ maxWidth) :
    linesFit w maxWidth (wrap_text w maxWidth text) :=
  fun l hl => wrapGo_fit w maxWidth hc text [] (Or.inl rfl) l (by simpa [wrap_text] using hl)

/-- Witness for the wrap_text width theorem: one pixel per character, max
width 2, concrete text. -/
theorem wrap_text_width_bound_wit :
    linesFit onePerChar 2 (wrap_text onePerChar 2 ['a', 'b', 'c']) :=
  wrap_text_width_bound onePerChar 2 ['a', 'b', 'c'] (fun c => by norm_num [onePerChar])

/-- Counterexample to C9 as stated: starting with no temporary copy present,
after a gen_video call with subtitles the copy exists, whether the composer
succeeded or failed, so the temporary directory is not left unchanged. -/
theorem temp_subtitle_cex :
    tempAfter true true false = true ∧ tempAfter true false false = true := by decide

/-- C9 amended: the temporary subtitle copy created by gen_video is never
removed: after the call it exists regardless of the composer outcome and of
the prior state, and the operation trace contains only the copy, never a
removal. -/
theorem temp_subtitle_copy_persists (composerSucceeds st : Bool) :
    tempAfter true composerSucceeds st = true ∧
    gen_video_tempOps true composerSucceeds = [FsOp.copyTempSubtitles] :=
  ⟨rfl, rfl⟩

/-- Witness for the temp-copy theorem at a concrete composer outcome and
initial state. -/
theorem temp_subtitle_copy_persists_wit :
    tempAfter true true false = true ∧ gen_video_tempOps true true = [FsOp.copyTempSubtitles] :=
  temp_subtitle_copy_persists true false

/-- Counterexample to C7 as stated: a probe that exits zero with empty
stdout makes gen_video raise an uncaught ValueError at float() rather than
return a failure result. -/
theorem gen_video_probe_cex : gen_video_duration 0 [] = GenVideoStep.valueError := by decide

/-- C7 amended: gen_video returns the failure result when the probe exits
non-zero, and proceeds with the parsed duration when the probe exits zero
with numeric output; a zero exit with non-numeric output instead raises an
uncaught ValueError. -/
theorem gen_video_probe_handling (returncode : ℤ) (stdout : List Char) :
    (returncode ≠ 0 → gen_video_duration returncode stdout = GenVideoStep.failure) ∧
    (∀ d : ℚ, returncode = 0 → parseFloat (pyStrip stdout) = some d →
      gen_video_duration returncode stdout = GenVideoStep.proceed d) := by
  constructor
  · intro h
    simp [gen_video_duration, h]
  · intro d h0 hp
    simp [gen_video_duration, h0, hp]

/-- Witness for the probe-handling theorem: exit 1 fails, exit 0 with
stdout 12 proceeds with duration 12. -/
theorem gen_video_probe_handling_wit :
    gen_video_duration 1 [] = GenVideoStep.failure ∧
    gen_video_duration 0 ['1', '2'] = GenVideoStep.proceed 12 := by
  refine ⟨(gen_video_probe_handling 1 []).1 (by norm_num), ?_⟩
  refine (gen_video_probe_handling 0 ['1', '2']).2 12 rfl ?_
  have h1 : pyStrip ['1', '2'] = ['1', '2'] := by decide
  rw [h1]
  show parseUnsigned ['1', '2'] = some 12
  have h2 : (['1', '2'] : List Char).splitOn '.' = [['1', '2']] := by decide
  rw [parseUnsigned, h2]
  show parseDecimal ['1', '2'] [] = some 12
  rw [parseDecimal, if_pos (by decide)]
  have h3 : digitsVal ['1', '2'] = 12 := by decide
  have h4 : digitsVal ([] : List Char) = 0 := rfl
  norm_num [h3, h4]

theorem shrinkLoop_run (fits : ℕ → ℕ → ℕ → ℕ → Bool) :
    shrinkLoop fits 90 60 40 60 =
      if fits 90 60 40 60 then (90, 60)
      else if fits 80 53 32 53 then (80, 53)
      else if fits 70 46 28 46 then (70, 46)
      else if fits 60 40 24 40 then (60, 40)
      else if fits 50 33 20 33 then (50, 33)
      else (40, 26) := by
  rw [shrinkLoop.eq_def]; norm_num
  rw [shrinkLoop.eq_def]; norm_num
  rw [shrinkLoop.eq_def]; norm_num
  rw [shrinkLoop.eq_def]; norm_num
  rw [shrinkLoop.eq_def]; norm_num
  rw [shrinkLoop.eq_def]; norm_num

theorem shrinkIters_le_aux (fits : ℕ → ℕ → ℕ → ℕ → Bool) (t : ℕ) :
    ∀ b sp g, shrinkIters fits t b sp g ≤ (t - 30) / 10 := by
  induction t using Nat.strong_induction_on with
  | _ t ih =>
    intro b sp g
    rw [shrinkIters.eq_def]
    split_ifs with h1 h2 h3
    · omega
    · have hrec := ih (t - 10) (by omega) ((t - 10) * 67 / 100) ((t - 10) * 4 / 10)
        ((t - 10) * 67 / 100)
      omega
    · omega
    · omega

/-- C6: the font-shrink loop of gen_cover, entered with title size 90, body
size 60, spacing 40 and gap 60, performs at most 6 attempts for every fit
test; the font sizes of the attempt actually rendered are within [40, 90]
for the title and strictly positive for the body; and when no attempt ever
fits the loop stops at the 40/26 best-effort sizes instead of failing. -/
theorem gen_cover_font_shrink_bounded (fits : ℕ → ℕ → ℕ → ℕ → Bool) :
    shrinkIters fits 90 60 40 60 ≤ 6 ∧
    40 ≤ (shrinkLoop fits 90 60 40 60).1 ∧
    (shrinkLoop fits 90 60 40 60).1 ≤ 90 ∧
    0 < (shrinkLoop fits 90 60 40 60).2 ∧
    ((∀ a b sp g, fits a b sp g = false) → shrinkLoop fits 90 60 40 60 = (40, 26)) := by
  refine ⟨shrinkIters_le_aux fits 90 60 40 60, ?_, ?_, ?_, ?_⟩
  · rw [shrinkLoop_run]; split_ifs <;> norm_num
  · rw [shrinkLoop_run]; split_ifs <;> norm_num
  · rw [shrinkLoop_run]; split_ifs <;> norm_num
  · intro hf
    rw [shrinkLoop_run]
    simp [hf]

/-- Witness for the font-shrink theorem at the fit test that always fails:
the loop still performs at most 6 attempts and lands on the 40/26
best-effort sizes. -/
theorem gen_cover_font_shrink_bounded_wit :
    shrinkIters (fun _ _ _ _ => false) 90 60 40 60 ≤ 6 ∧
    40 ≤ (shrinkLoop (fun _ _ _ _ => false) 90 60 40 60).1 ∧
    (shrinkLoop (fun _ _ _ _ => false) 90 60 40 60).1 ≤ 90 ∧
    0 < (shrinkLoop (fun _ _ _ _ => false) 90 60 40 60).2 ∧
    shrinkLoop (fun _ _ _ _ => false) 90 60 40 60 = (40, 26) := by
  have h := gen_cover_font_shrink_bounded (fun _ _ _ _ => false)
  exact ⟨h.1, h.2.1, h.2.2.1, h.2.2.2.1, h.2.2.2.2 (fun _ _ _ _ => rfl)⟩

/-- C2: the three format_time routines of the word-timestamp mode, the
fallback mode and the VTT conversion path agree on every input, and render
the zero-padded HH:MM:SS,mmm examples 0 s and 3661.5 s as 00:00:00,000 and
01:01:01,500. -/
theorem format_time_modes_agree :
    (∀ q : ℚ, format_time_whisper q = format_time_vtt q ∧
      format_time_vtt q = format_time_fallback q) ∧
    format_time_whisper 0 = "00:00:00,000" ∧
    format_time_whisper (7323/2) = "01:01:01,500" := by
  refine ⟨fun q => ⟨rfl, rfl⟩, ?_, ?_⟩
  · have h1 : (⌊(0 : ℚ) / 3600⌋ : ℤ) = 0 := by norm_num
    have h2 : (⌊pyMod (0 : ℚ) 3600 / 60⌋ : ℤ) = 0 := by norm_num [pyMod]
    have h3 : (⌊pyMod (0 : ℚ) 60⌋ : ℤ) = 0 := by norm_num [pyMod]
    have h4 : (⌊pyMod (0 : ℚ) 1 * 1000⌋ : ℤ) = 0 := by norm_num [pyMod]
    simp only [format_time_whisper]
    rw [h1, h2, h3, h4]
    decide
  · have h1 : (⌊(7323/2 : ℚ) / 3600⌋ : ℤ) = 1 := by norm_num
    have h2 : (⌊pyMod (7323/2 : ℚ) 3600 / 60⌋ : ℤ) = 1 := by norm_num [pyMod]
    have h3 : (⌊pyMod (7323/2 : ℚ) 60⌋ : ℤ) = 1 := by norm_num [pyMod]
    have h4 : (⌊pyMod (7323/2 : ℚ) 1 * 1000⌋ : ℤ) = 500 := by norm_num [pyMod]
    simp only [format_time_whisper]
    rw [h1, h2, h3, h4]
    decide

/-- Witness for the format_time agreement theorem at a concrete input. -/
theorem format_time_modes_agree_wit :
    format_time_whisper 1 = format_time_vtt 1 ∧ format_time_whisper 0 = "00:00:00,000" :=
  ⟨(format_time_modes_agree.1 1).1, format_time_modes_agree.2.1⟩

theorem forceSplitGo_spec (m : ℕ) (hm : 1 ≤ m) :
    ∀ (fuel : ℕ) (seg : List Char), seg.length ≤ fuel →
      ∀ p ∈ forceSplitGo m fuel seg, p ≠ [] ∧ p.length ≤ m := by
  intro fuel
  induction fuel with
  | zero =>
    intro seg hlen p hp
    have hseg : seg = [] := List.eq_nil_of_length_eq_zero (Nat.le_zero.mp hlen)
    simp [forceSplitGo, hseg] at hp
  | succ n ih =>
    intro seg hlen p hp
    simp only [forceSplitGo] at hp
    split_ifs at hp with h1 h2
    · rcases List.mem_cons.mp hp with rfl | hp
      · constructor
        · have : (seg.take m).length = m := by
            rw [List.length_take]
            omega
          intro hnil
          rw [hnil] at this
          simp at this
          omega
        · rw [List.length_take]
          omega
      · refine ih (seg.drop m) ?_ p hp
        rw [List.length_drop]
        omega
    · simp at hp
    · rcases List.mem_singleton.mp hp with rfl
      exact ⟨h2, by omega⟩

theorem forceSplitGo_ne_nil (m : ℕ) (fuel : ℕ) (seg : List Char) (hseg : seg ≠ []) :
    forceSplitGo m fuel seg ≠ [] := by
  cases fuel with
  | zero => simp [forceSplitGo, hseg]
  | succ n =>
    simp only [forceSplitGo]
    split_ifs <;> simp_all

theorem punctSegments_join (m : ℕ) :
    ∀ (t acc : List Char), (punctSegments m acc t).flatten = acc ++ t := by
  intro t
  induction t with
  | nil =>
    intro acc
    by_cases h : acc = [] <;> simp [punctSegments, h]
  | cons c rest ih =>
    intro acc
    simp only [punctSegments]
    split_ifs with h1
    · simp only [List.flatten_cons]
      rw [ih]
      simp
    · rw [ih]
      simp

theorem splitResult_ne_nil (m : ℕ) (t : List Char) (ht : t ≠ []) :
    ((punctSegments m [] t).map (forceSplit m)).flatten ≠ [] := by
  intro hflat
  have hjoin : (punctSegments m [] t).flatten = t := by simpa using punctSegments_join m t []
  have hex : ∃ s ∈ punctSegments m [] t, s ≠ [] := by
    by_contra hall
    push_neg at hall
    exact ht (by rw [← hjoin]; exact List.flatten_eq_nil_iff.mpr hall)
  obtain ⟨s, hs, hsne⟩ := hex
  have : forceSplit m s = [] :=
    List.flatten_eq_nil_iff.mp hflat _ (List.mem_map_of_mem (forceSplit m) hs)
  exact forceSplitGo_ne_nil m s.length s hsne this

theorem split_text_ne_nil (text : List Char) (m : ℕ) : split_text text m ≠ [] := by
  simp only [split_text]
  split_ifs with h1 h2
  · simp
  · simp
  · exact h2

theorem split_text_spec (text : List Char) (m : ℕ) (hm : 1 ≤ m) (ht : text ≠ []) :
    partsWellFormed m (split_text text m) := by
  intro p hp
  simp only [split_text] at hp
  split_ifs at hp with h1 h2
  · rcases List.mem_singleton.mp hp with rfl
    exact ⟨ht, h1⟩
  · exact absurd h2 (splitResult_ne_nil m text ht)
  · obtain ⟨ps, hps, hpin⟩ := List.mem_flatten.mp hp
    obtain ⟨s, _, rfl⟩ := List.mem_map.mp hps
    exact forceSplitGo_spec m hm s.length s le_rfl p hpin

theorem whisperStep_inv (m : ℕ) (w : Word) (st : WhisperState) (hw : w.text.length ≤ m)
    (hb : cuesTextBounded m st.blocks) (hc : st.curText.length ≤ m) :
    cuesTextBounded m (whisperStep m st w).blocks ∧
      (whisperStep m st w).curText.length ≤ m := by
  simp only [whisperStep]
  split_ifs with h1 h2
  · exact ⟨hb, hc⟩
  · refine ⟨?_, by simpa using hw⟩
    intro c hcmem
    simp only at hcmem
    rcases List.mem_append.mp hcmem with h | h
    · exact hb c h
    · rcases List.mem_singleton.mp h with rfl
      exact ⟨h2.2, hc⟩
  · refine ⟨hb, ?_⟩
    rcases not_and_or.mp h2 with h | h
    · simp only [List.length_append]
      omega
    · push_neg at h
      simp [h, hw]

theorem whisperFold_inv (m : ℕ) :
    ∀ (ws : List Word) (st : WhisperState), (∀ w ∈ ws, w.text.length ≤ m) →
      cuesTextBounded m st.blocks → st.curText.length ≤ m →
      cuesTextBounded m (ws.foldl (whisperStep m) st).blocks ∧
        (ws.foldl (whisperStep m) st).curText.length ≤ m := by
  intro ws
  induction ws with
  | nil => intro st _ hb hc; exact ⟨hb, hc⟩
  | cons w rest ih =>
    intro st hws hb hc
    have h := whisperStep_inv m w st (hws w (by simp)) hb hc
    exact ih _ (fun x hx => hws x (by simp [hx])) h.1 h.2

/-- Counterexample to C4 as stated: with the default threshold 20, a single
transcribed word of 21 characters becomes one whisper cue of 21 characters,
exceeding the threshold. -/
theorem cue_text_length_cex :
    ¬ cuesTextBounded 20
      (gen_subtitles_whisper 20 [{ text := List.replicate 21 'a', start := 0, stop := 1 }]) := by
  decide

/-- C4 amended: re-splitting a non-empty cue text on the conversion path
(threshold at least 1) yields only non-empty segments within the threshold;
word-timestamp cues are non-empty and within the threshold provided no
single word exceeds it on its own, a lone oversize word becoming an
oversize single-word cue otherwise. -/
theorem cue_text_length_bounds (m : ℕ) (text : List Char) (words : List Word) :
    (1 ≤ m → text ≠ [] → partsWellFormed m (split_text text m)) ∧
    ((∀ w ∈ words, w.text.length ≤ m) →
      cuesTextBounded m (gen_subtitles_whisper m words)) := by
  constructor
  · intro hm ht
    exact split_text_spec text m hm ht
  · intro hws
    have h := whisperFold_inv m words
      { blocks := [], num := 1, curText := [], curStart := none, curEnd := none }
      hws (by intro c hc; simp at hc) (by simp)
    simp only [gen_subtitles_whisper]
    split_ifs with h1
    · exact h.1
    · intro c hc
      rcases List.mem_append.mp hc with hmem | hmem
      · exact h.1 c hmem
      · rcases List.mem_singleton.mp hmem with rfl
        exact ⟨h1, h.2⟩

/-- Witness for the cue-text-length theorem: a 25-character text re-split at
threshold 20, and a two-character word grouped at threshold 20. -/
theorem cue_text_length_bounds_wit :
    partsWellFormed 20 (split_text (List.replicate 25 'a') 20) ∧
    cuesTextBounded 20 (gen_subtitles_whisper 20 [{ text := ['h', 'i'], start := 0, stop := 1 }]) :=
  ⟨(cue_text_length_bounds 20 (List.replicate 25 'a') []).1 (by norm_num) (by decide),
   (cue_text_length_bounds 20 [] [{ text := ['h', 'i'], start := 0, stop := 1 }]).2 (by decide)⟩

theorem sentenceCues_indicesFrom (tps : ℚ) :
    ∀ (l : List (List Char)) (i : ℕ), indicesFrom (i + 1) (sentenceCues tps i l) := by
  intro l
  induction l with
  | nil => intro i; trivial
  | cons s rest ih => intro i; exact ⟨rfl, ih (i + 1)⟩

theorem sentenceCues_chain (tps : ℚ) :
    ∀ (l : List (List Char)) (i : ℕ), nonOverlapping (sentenceCues tps i l) := by
  intro l
  induction l with
  | nil => intro i; exact List.chain'_nil
  | cons s rest ih =>
    intro i
    cases rest with
    | nil => exact List.chain'_singleton _
    | cons s2 rest2 =>
      refine List.chain'_cons.mpr ⟨?_, ih (i + 1)⟩
      show ((i : ℚ) + 1) * tps - 1/10 ≤ ((i + 1 : ℕ) : ℚ) * tps
      push_cast
      linarith

theorem sentenceCues_startLt (tps : ℚ) (h : 1/10 < tps) :
    ∀ (l : List (List Char)) (i : ℕ), startsBeforeStops (sentenceCues tps i l) := by
  intro l
  induction l with
  | nil => intro i c hc; simp [sentenceCues] at hc
  | cons s rest ih =>
    intro i c hc
    rcases List.mem_cons.mp hc with rfl | hc
    · show (i : ℚ) * tps < ((i : ℚ) + 1) * tps - 1/10
      have hexp : ((i : ℚ) + 1) * tps = (i : ℚ) * tps + tps := by ring
      linarith
    · exact ih (i + 1) c hc

theorem vttPartCues_length (s0 tpp : ℚ) :
    ∀ (l : List (List Char)) (n j : ℕ), (vttPartCues s0 tpp n j l).length = l.length := by
  intro l
  induction l with
  | nil => intro n j; rfl
  | cons p ps ih => intro n j; simp [vttPartCues, ih]

theorem vttPartCues_indicesFrom (s0 tpp : ℚ) :
    ∀ (l : List (List Char)) (n j : ℕ), indicesFrom n (vttPartCues s0 tpp n j l) := by
  intro l
  induction l with
  | nil => intro n j; trivial
  | cons p ps ih => intro n j; exact ⟨rfl, ih (n + 1) (j + 1)⟩

theorem indicesFrom_append (l1 l2 : List SubtitleCue) :
    ∀ n, indicesFrom n l1 → indicesFrom (n + l1.length) l2 → indicesFrom n (l1 ++ l2) := by
  induction l1 with
  | nil => intro n _ h2; simpa using h2
  | cons c rest ih =>
    intro n h1 h2
    refine ⟨h1.1, ih (n + 1) h1.2 ?_⟩
    have heq : n + (rest.length + 1) = n + 1 + rest.length := by omega
    simpa [heq] using h2

theorem vttPartCues_chain (s0 tpp : ℚ) :
    ∀ (l : List (List Char)) (n j : ℕ), nonOverlapping (vttPartCues s0 tpp n j l) := by
  intro l
  induction l with
  | nil => intro n j; exact List.chain'_nil
  | cons p ps ih =>
    intro n j
    cases ps with
    | nil => exact List.chain'_singleton _
    | cons q qs =>
      refine List.chain'_cons.mpr ⟨?_, ih (n + 1) (j + 1)⟩
      show s0 + ((j : ℚ) + 1) * tpp - 1/20 ≤ s0 + ((j + 1 : ℕ) : ℚ) * tpp
      push_cast
      linarith

theorem vttPartCues_startLt (s0 tpp : ℚ) (h : 1/20 < tpp) :
    ∀ (l : List (List Char)) (n j : ℕ), startsBeforeStops (vttPartCues s0 tpp n j l) := by
  intro l
  induction l with
  | nil => intro n j c hc; simp [vttPartCues] at hc
  | cons p ps ih =>
    intro n j c hc
    rcases List.mem_cons.mp hc with rfl | hc
    · show s0 + (j : ℚ) * tpp < s0 + ((j : ℚ) + 1) * tpp - 1/20
      have hexp : ((j : ℚ) + 1) * tpp = (j : ℚ) * tpp + tpp := by ring
      linarith
    · exact ih (n + 1) (j + 1) c hc

theorem vttPartCues_getLast (s0 tpp : ℚ) :
    ∀ (l : List (List Char)) (n j : ℕ) (x : SubtitleCue),
      x ∈ (vttPartCues s0 tpp n j l).getLast? →
      x.stop = s0 + ((j : ℚ) + l.length) * tpp - 1/20 := by
  intro l
  induction l with
  | nil => intro n j x hx; simp [vttPartCues] at hx
  | cons p ps ih =>
    intro n j x hx
    cases ps with
    | nil =>
      simp only [vttPartCues, List.getLast?_singleton, Option.mem_def, Option.some.injEq] at hx
      subst hx
      show s0 + ((j : ℚ) + 1) * tpp - 1/20 = s0 + ((j : ℚ) + ([p] : List (List Char)).length) * tpp - 1/20
      norm_num
    | cons q qs =>
      have hx' : x ∈ (vttPartCues s0 tpp (n + 1) (j + 1) (q :: qs)).getLast? := by
        simpa only [vttPartCues, List.getLast?_cons_cons] using hx
      have := ih (n + 1) (j + 1) x hx'
      rw [this]
      push_cast [List.length_cons]
      ring

theorem vttCuesGo_head (m n : ℕ) (b : RawSub) (rest : List RawSub) :
    ∀ y ∈ (vttCuesGo m n (b :: rest)).head?, y.start = b.start := by
  intro y hy
  obtain ⟨p, ps, hps⟩ := List.exists_cons_of_ne_nil (split_text_ne_nil b.text m)
  simp only [vttCuesGo, hps, vttPartCues, List.cons_append, List.head?_cons,
    Option.mem_def, Option.some.injEq] at hy
  rw [← hy]
  simp

theorem vttCuesGo_indicesFrom (m : ℕ) :
    ∀ (subs : List RawSub) (n : ℕ), indicesFrom n (vttCuesGo m n subs) := by
  intro subs
  induction subs with
  | nil => intro n; trivial
  | cons sub rest ih =>
    intro n
    simp only [vttCuesGo]
    refine indicesFrom_append _ _ n (vttPartCues_indicesFrom _ _ _ n 0) ?_
    rw [vttPartCues_length]
    exact ih (n + (split_text sub.text m).length)

theorem vttCuesGo_chain (m : ℕ) :
    ∀ (subs : List RawSub) (n : ℕ), rawOrdered subs → nonOverlapping (vttCuesGo m n subs) := by
  intro subs
  induction subs with
  | nil => intro n _; exact List.chain'_nil
  | cons a rest ih =>
    intro n hord
    simp only [vttCuesGo]
    refine List.Chain'.append (vttPartCues_chain _ _ _ _ _) (ih _ hord.tail) ?_
    intro x hx y hy
    cases rest with
    | nil => simp [vttCuesGo] at hy
    | cons b rest2 =>
      have hpos : 0 < (split_text a.text m).length :=
        List.length_pos.mpr (split_text_ne_nil a.text m)
      have hk : ((split_text a.text m).length : ℚ) ≠ 0 :=
        Nat.cast_ne_zero.mpr (Nat.pos_iff_ne_zero.mp hpos)
      have hx' := vttPartCues_getLast _ _ _ _ _ x hx
      have hx2 : x.stop = a.stop - 1/20 := by
        rw [hx']
        push_cast
        field_simp
      have hy' := vttCuesGo_head m _ b rest2 y hy
      have hab : a.stop ≤ b.start := (List.chain'_cons.mp hord).1
      rw [hx2, hy']
      linarith

theorem vttCuesGo_startLt (m : ℕ) :
    ∀ (subs : List RawSub) (n : ℕ),
      (∀ sub ∈ subs, 1/20 < (sub.stop - sub.start) / ((split_text sub.text m).length : ℚ)) →
      startsBeforeStops (vttCuesGo m n subs) := by
  intro subs
  induction subs with
  | nil => intro n _ c hc; simp [vttCuesGo] at hc
  | cons a rest ih =>
    intro n hall c hc
    simp only [vttCuesGo] at hc
    rcases List.mem_append.mp hc with h | h
    · exact vttPartCues_startLt _ _ (hall a (by simp)) _ _ _ c h
    · exact ih _ (fun s hs => hall s (by simp [hs])) c h

/-- C1 amended: in both production modes the cue indices are exactly 1..N
contiguous, and consecutive cues never overlap within the cues generated
from one source (the fixed 0.1 s resp. 0.05 s gap is subtracted from every
end); across distinct parsed VTT cues non-overlap additionally needs the
parsed cues themselves to be ordered.  Every cue starts strictly before it
ends exactly when its nominal time share exceeds the subtracted gap:
duration per sentence above 0.1 s for gen_subtitles, cue duration per
segment above 0.05 s for vtt_to_srt; otherwise a degenerate or inverted cue
is emitted. -/
theorem subtitle_sequence_invariants (text : List Char) (d : ℚ) (m : ℕ) (subs : List RawSub) :
    (indicesFrom 1 (gen_subtitles text d) ∧ nonOverlapping (gen_subtitles text d) ∧
      (1/10 < d / ((splitSentences text).length : ℚ) →
        startsBeforeStops (gen_subtitles text d))) ∧
    (indicesFrom 1 (vtt_to_srt subs m) ∧
      (rawOrdered subs → nonOverlapping (vtt_to_srt subs m)) ∧
      ((∀ sub ∈ subs, 1/20 < (sub.stop - sub.start) / ((split_text sub.text m).length : ℚ)) →
        startsBeforeStops (vtt_to_srt subs m))) := by
  refine ⟨⟨?_, ?_, ?_⟩, ?_, ?_, ?_⟩
  · exact sentenceCues_indicesFrom _ _ 0
  · exact sentenceCues_chain _ _ 0
  · intro h
    exact sentenceCues_startLt _ h _ 0
  · exact vttCuesGo_indicesFrom m subs 1
  · intro h
    exact vttCuesGo_chain m subs 1 h
  · intro h
    exact vttCuesGo_startLt m subs 1 h

/-- Counterexample to C1 as stated: one sentence with positive total
duration 0.1 s gives a fallback cue with start = end = 0, violating
start < end; and two overlapping parsed VTT cues yield overlapping output
cues on the conversion path. -/
theorem subtitle_sequence_cex :
    ¬ startsBeforeStops (gen_subtitles ['a'] (1/10)) ∧
    ¬ nonOverlapping (vtt_to_srt
      [{ start := 5, stop := 6, text := ['a'] }, { start := 0, stop := 1, text := ['b'] }] 20) := by
  constructor
  · intro h
    have hs : splitSentences ['a'] = [['a']] := by decide
    simp only [startsBeforeStops, gen_subtitles, hs, sentenceCues, List.mem_cons,
      List.not_mem_nil, or_false, forall_eq] at h
    norm_num at h
  · intro h
    have h1 : split_text ['a'] 20 = [['a']] := by decide
    have h2 : split_text ['b'] 20 = [['b']] := by decide
    simp only [vtt_to_srt, vttCuesGo, h1, h2, vttPartCues, List.cons_append,
      List.nil_append, List.append_nil] at h
    have h3 := (List.chain'_cons.mp h).1
    norm_num at h3

/-- Witness for the subtitle sequence theorem: a two-sentence text at 4 s,
and two ordered parsed cues of ample duration. -/
theorem subtitle_sequence_invariants_wit :
    (indicesFrom 1 (gen_subtitles ['a', '\n', 'b'] 4) ∧
      nonOverlapping (gen_subtitles ['a', '\n', 'b'] 4) ∧
      startsBeforeStops (gen_subtitles ['a', '\n', 'b'] 4)) ∧
    (indicesFrom 1 (vtt_to_srt
        [{ start := 0, stop := 1, text := ['a'] }, { start := 2, stop := 3, text := ['b'] }] 20) ∧
      nonOverlapping (vtt_to_srt
        [{ start := 0, stop := 1, text := ['a'] }, { start := 2, stop := 3, text := ['b'] }] 20) ∧
      startsBeforeStops (vtt_to_srt
        [{ start := 0, stop := 1, text := ['a'] }, { start := 2, stop := 3, text := ['b'] }] 20)) := by
  obtain ⟨hA, hB⟩ := subtitle_sequence_invariants ['a', '\n', 'b'] 4 20
    [{ start := 0, stop := 1, text := ['a'] }, { start := 2, stop := 3, text := ['b'] }]
  refine ⟨⟨hA.1, hA.2.1, hA.2.2 ?_⟩, hB.1, hB.2.1 ?_, hB.2.2 ?_⟩
  · have hs : splitSentences ['a', '\n', 'b'] = [['a'], ['b']] := by decide
    rw [hs]
    norm_num
  · exact List.chain'_cons.mpr ⟨by norm_num, List.chain'_singleton _⟩
  · intro sub hsub
    have ha : split_text ['a'] 20 = [['a']] := by decide
    have hb : split_text ['b'] 20 = [['b']] := by decide
    rcases List.mem_cons.mp hsub with rfl | hsub
    · norm_num [ha]
    · rcases List.mem_singleton.mp hsub with rfl
      norm_num [hb]

theorem vttPartCues_durations (s0 tpp : ℚ) :
    ∀ (l : List (List Char)) (n j : ℕ),
      (vttPartCues s0 tpp n j l).map (fun c => c.stop - c.start)
        = List.replicate l.length (tpp - 1/20) := by
  intro l
  induction l with
  | nil => intro n j; rfl
  | cons p ps ih =>
    intro n j
    simp only [vttPartCues, List.map_cons, List.length_cons, List.replicate_succ, ih]
    congr 1
    show s0 + ((j : ℚ) + 1) * tpp - 1/20 - (s0 + (j : ℚ) * tpp) = tpp - 1/20
    ring

/-- C3 amended: each of the k segments of a re-split VTT cue receives the
equal nominal share duration/k, but its realized duration is that share
minus the fixed 0.05 s trailing gap, so the output durations sum to the
original duration minus k times 0.05 s rather than to the original
duration. -/
theorem vtt_resplit_time_distribution (m : ℕ) (sub : RawSub) :
    (vtt_to_srt [sub] m).map (fun c => c.stop - c.start)
      = List.replicate (split_text sub.text m).length
          ((sub.stop - sub.start) / ((split_text sub.text m).length : ℚ) - 1/20) ∧
    ((vtt_to_srt [sub] m).map (fun c => c.stop - c.start)).sum
      = (sub.stop - sub.start) - ((split_text sub.text m).length : ℚ) * (1/20) := by
  have hmap : (vtt_to_srt [sub] m).map (fun c => c.stop - c.start)
      = List.replicate (split_text sub.text m).length
          ((sub.stop - sub.start) / ((split_text sub.text m).length : ℚ) - 1/20) := by
    simp only [vtt_to_srt, vttCuesGo, List.append_nil]
    exact vttPartCues_durations _ _ _ 1 0
  refine ⟨hmap, ?_⟩
  rw [hmap]
  have hpos : 0 < (split_text sub.text m).length :=
    List.length_pos.mpr (split_text_ne_nil sub.text m)
  have hk : ((split_text sub.text m).length : ℚ) ≠ 0 :=
    Nat.cast_ne_zero.mpr (Nat.pos_iff_ne_zero.mp hpos)
  rw [List.sum_replicate, nsmul_eq_mul]
  field_simp
  ring

/-- Counterexample to C3 as stated: a 10-second cue of 40 characters is
re-split at threshold 20 into two 20-character segments whose durations sum
to 9.9 s, not to the original 10 s even up to rounding: the two 0.05 s
trailing gaps are lost. -/
theorem vtt_resplit_sum_cex :
    ((vtt_to_srt [{ start := 0, stop := 10, text := List.replicate 40 'a' }] 20).map
      (fun c => c.stop - c.start)).sum ≠ (10 : ℚ) := by
  have hp : split_text (List.replicate 40 'a') 20
      = [List.replicate 20 'a', List.replicate 20 'a'] := by decide
  simp only [vtt_to_srt, vttCuesGo, hp, vttPartCues, List.append_nil, List.map_cons,
    List.map_nil, List.sum_cons, List.sum_nil, List.length_cons, List.length_nil]
  norm_num

/-- Witness for the time-distribution theorem at the 40-character cue. -/
theorem vtt_resplit_time_distribution_wit :
    ((vtt_to_srt [{ start := 0, stop := 10, text := List.replicate 40 'a' }] 20).map
        (fun c => c.stop - c.start)).sum
      = ((10 : ℚ) - 0) - ((split_text (List.replicate 40 'a') 20).length : ℚ) * (1/20) :=
  (vtt_resplit_time_distribution 20 { start := 0, stop := 10, text := List.replicate 40 'a' }).2

/-- Counterexample to C8 as stated: with an empty text block both functions
produce an artifact instead of failing fast with an error: gen_subtitles
emits one cue with empty text spanning the 10 s duration minus the 0.1 s
gap, and gen_cover parses an empty block and proceeds with the initial
90/60 font sizes. -/
theorem empty_text_artifact_cex :
    gen_subtitles [] 10 = [{ index := 1, start := 0, stop := 99/10, text := [] }] ∧
    gen_cover_result (fun _ _ _ _ => true) [] = (([], []), (90, 60)) := by
  constructor
  · have hs : splitSentences [] = [[]] := by decide
    simp only [gen_subtitles, hs, sentenceCues, List.length_cons, List.length_nil]
    norm_num
  · have h1 : gen_cover_parseTitleBody [] = ([], []) := by decide
    have h2 : shrinkLoop (fun _ _ _ _ => true) 90 60 40 60 = (90, 60) := by
      rw [shrinkLoop_run]
      simp
    simp [gen_cover_result, h1, h2]

/-- C8 amended: an empty text block is not rejected and no InvalidInput
error path exists in either function: gen_subtitles emits exactly one cue
with empty text spanning the full duration minus the fixed gap, and
gen_cover parses the empty block to an empty title with no body lines and
proceeds to render. -/
theorem empty_text_no_failfast (d : ℚ) (fits : ℕ → ℕ → ℕ → ℕ → Bool) :
    gen_subtitles [] d = [{ index := 1, start := 0, stop := d - 1/10, text := [] }] ∧
    (gen_cover_result fits []).1 = ([], []) := by
  constructor
  · have hs : splitSentences [] = [[]] := by decide
    simp only [gen_subtitles, hs, sentenceCues, List.length_cons, List.length_nil]
    norm_num
  · show gen_cover_parseTitleBody [] = ([], [])
    decide

/-- Witness for the empty-text theorem at duration 2 and an always-fitting
test. -/
theorem empty_text_no_failfast_wit :
    gen_subtitles [] 2 = [{ index := 1, start := 0, stop := 2 - 1/10, text := [] }] ∧
    (gen_cover_result (fun _ _ _ _ => true) []).1 = ([], []) :=
  empty_text_no_failfast 2 (fun _ _ _ _ => true)
